import Mathlib

/-!
Shallow embedding of the Table Read room server (`src/unnamed/part_001`,
the socket.io server with casting and beat progression; `src/unnamed/part_000`
is the script-catalogue loader).  Rooms, scripts and the per-room event
handlers are translated as pure Lean functions; the side channel of
socket.io emissions is made explicit as a list of `Event`s returned next
to the updated room, and the `setTimeout` auto-advance callback is a
separate function on the room registry.  JavaScript objects used as
string-keyed maps become association lists with the object's insertion
order; JS truthiness of an assignment slot (null and the empty string are
falsy) is modelled explicitly.
-/

namespace TableRead

/-- One unit of script content (`script.beats[i]`): a dialogue line
attributed to a character, or a free-form stage direction. -/
inductive Beat where
  | dialogue (character : String) (text : String)
  | direction (text : String)
deriving DecidableEq, Repr

/-- An entry of `script.characters`. -/
structure Character where
  name : String
deriving DecidableEq, Repr

/-- A prepared script from the catalogue. -/
structure Script where
  title : String
  characters : List Character
  beats : List Beat
deriving DecidableEq, Repr

/-- An entry of `room.players`: socket id and display name. -/
structure Player where
  id : String
  name : String
deriving DecidableEq, Repr

/-- `room.state`: the string states 'lobby', 'performance', 'ended'. -/
inductive RoomState where
  | lobby
  | performance
  | ended
deriving DecidableEq, Repr

/-- The JS object `room.assignments` mapping character name to owner
display name or null, in insertion order. -/
abbrev Assignments := List (String × Option String)

/-- A room as stored in the `rooms` registry. -/
structure Room where
  hostId : String
  hostName : String
  players : List Player
  script : Script
  assignments : Assignments
  state : RoomState
  currentBeat : Nat
deriving DecidableEq, Repr

/-- `socket.data.role`, set to 'host' on create-room and 'player' on join-room. -/
inductive Role where
  | host
  | player
deriving DecidableEq, Repr

/-- `(name || '').trim()`: strips leading and trailing whitespace from a
display name. -/
def trimName (s : String) : String :=
  ⟨((s.data.dropWhile Char.isWhitespace).reverse.dropWhile Char.isWhitespace).reverse⟩

/-- Property access `a[ch]` on the assignments object: `none` when the key
is absent (JS `undefined`), `some v` with the stored owner otherwise. -/
def lookupA (a : Assignments) (ch : String) : Option (Option String) :=
  match a with
  | [] => none
  | (k, v) :: rest => if k = ch then some v else lookupA rest ch

/-- Assignment `a[ch] = v` for a key already present: replaces the stored
value, leaving keys and order untouched. -/
def setA (a : Assignments) (ch : String) (v : Option String) : Assignments :=
  a.map (fun kv => (kv.1, if kv.1 = ch then v else kv.2))

/-- The release pass
`Object.keys(a).forEach(c => { if (a[c] === p) a[c] = null; })`
run by boot-player and by a player disconnect. -/
def releaseAll (a : Assignments) (p : String) : Assignments :=
  a.map (fun kv => (kv.1, if kv.2 = some p then (none : Option String) else kv.2))

/-- JS truthiness of an assignment slot: `null`/`undefined` and the empty
string are falsy, every other string truthy. -/
def truthy : Option String → Bool
  | none => false
  | some s => !s.isEmpty

/-- `beat.character`'s owner as the beat payload reports it:
`room.assignments[ch] || null` (falsy owners collapse to null). -/
def ownerOrNull (a : Assignments) (ch : String) : Option String :=
  match (lookupA a ch).getD none with
  | none => none
  | some s => if s.isEmpty then none else some s

/-- `allCharactersAssigned`: every script character's slot holds a truthy
owner (`room.script.characters.every(c => room.assignments[c.name])`). -/
def allCharactersAssigned (room : Room) : Bool :=
  room.script.characters.all (fun c => truthy ((lookupA room.assignments c.name).getD none))

/-- The assignments object built at room creation:
`script.characters.forEach(c => { assignments[c.name] = null; })`. -/
def initAssignments (cs : List Character) : Assignments :=
  cs.map (fun c => (c.name, (none : Option String)))

/-- The socket.io emissions a handler performs, in order.  A `beat` event
carries the payload fields the claims are about (index, total, active
player); broadcastPlayerList and broadcastAssignments are abstracted to
their event kinds. -/
inductive Event where
  | playerList
  | assignmentsSnapshot
  | castingComplete (b : Bool)
  | beat (index : Nat) (total : Nat) (activePlayer : Option String)
  | scheduleAutoAdvance (index : Nat)
  | performanceStarted (title : String)
  | performanceEnded
  | kicked (targetId : String)
  | hostLeft
deriving DecidableEq, Repr

/-- The two broadcasts `broadcastPlayerList` + `broadcastAssignments`
run together by join-room, boot-player and a player disconnect. -/
def listAndAssignmentsEvents (room : Room) : List Event :=
  [Event.playerList, Event.assignmentsSnapshot, Event.castingComplete (allCharactersAssigned room)]

/-- `sendCurrentBeat`: emits nothing unless the room is in performance;
otherwise emits the beat payload and, for a non-dialogue beat, schedules
the 4-second auto-advance for the current index.  (The JS code would
raise a TypeError on an out-of-range `currentBeat`; under the
performance invariant the index is in range, and the model treats that
unreachable case as emitting nothing.) -/
def sendCurrentBeat (room : Room) : List Event :=
  if room.state = RoomState.performance then
    match room.script.beats.get? room.currentBeat with
    | none => []
    | some b =>
      let activePlayer : Option String :=
        match b with
        | Beat.dialogue ch _ => ownerOrNull room.assignments ch
        | Beat.direction _ => none
      let emitted := [Event.beat room.currentBeat room.script.beats.length activePlayer]
      match b with
      | Beat.dialogue _ _ => emitted
      | Beat.direction _ => emitted ++ [Event.scheduleAutoAdvance room.currentBeat]
  else []

/-- `advanceBeat`: in performance, increments `currentBeat`; past the last
beat index the room transitions to ended and performance-ended fires,
otherwise the new current beat is sent. -/
def advanceBeat (room : Room) : Room × List Event :=
  if room.state = RoomState.performance then
    let r := { room with currentBeat := room.currentBeat + 1 }
    if room.script.beats.length ≤ r.currentBeat then
      ({ r with state := RoomState.ended }, [Event.performanceEnded])
    else (r, sendCurrentBeat r)
  else (room, [])

/-- Result delivered to the join-room callback. -/
inductive JoinResult where
  | error (msg : String)
  | ok (name : String)
deriving DecidableEq, Repr

/-- The join-room handler, given a room that exists at the requested code
(the room-not-found error happens before this point).  Rejects only the
performance state and an empty trimmed name; otherwise appends the
player and broadcasts. -/
def joinRoom (room : Room) (id name : String) : Room × JoinResult × List Event :=
  if room.state = RoomState.performance then
    (room, JoinResult.error "Performance already started.", [])
  else
    let trimmed := trimName name
    if trimmed.isEmpty then (room, JoinResult.error "Please enter your name.", [])
    else
      let r := { room with players := room.players ++ [⟨id, trimmed⟩] }
      (r, JoinResult.ok trimmed, listAndAssignmentsEvents r)

/-- The claim-character handler (caller's `socket.data.name` is `name`):
lobby only, known characters only, toggle semantics. -/
def claimCharacter (room : Room) (name : String) (character : String) : Room × List Event :=
  if room.state ≠ RoomState.lobby then (room, [])
  else
    match lookupA room.assignments character with
    | none => (room, [])
    | some owner =>
      let r :=
        if owner = some name then
          { room with assignments := setA room.assignments character none }
        else if !truthy owner then
          { room with assignments := setA room.assignments character (some name) }
        else room
      (r, [Event.assignmentsSnapshot, Event.castingComplete (allCharactersAssigned r)])

/-- The force-assign handler: host only, known characters only, target
must be null, the host's name or a present player's name;
`assignments[character] = toPlayer || null`. -/
def forceAssign (room : Room) (role : Role) (character : String) (toPlayer : Option String) :
    Room × List Event :=
  if role ≠ Role.host then (room, [])
  else
    match lookupA room.assignments character with
    | none => (room, [])
    | some _ =>
      let validTarget : Bool :=
        match toPlayer with
        | none => true
        | some t => t = room.hostName || room.players.any (fun p => p.name = t)
      if !validTarget then (room, [])
      else
        let newVal : Option String :=
          match toPlayer with
          | none => none
          | some t => if t.isEmpty then none else some t
        let r := { room with assignments := setA room.assignments character newVal }
        (r, [Event.assignmentsSnapshot, Event.castingComplete (allCharactersAssigned r)] ++
            (if room.state = RoomState.performance then sendCurrentBeat r else []))

/-- The boot-player deadlock-avoidance step: during performance, when the
booted name owns the active dialogue beat, that character is handed to
the host before the release pass runs. -/
def bootReassignActive (room : Room) (playerName : String) : Assignments :=
  if room.state = RoomState.performance then
    match room.script.beats.get? room.currentBeat with
    | some (Beat.dialogue ch _) =>
      if (lookupA room.assignments ch).getD none = some playerName then
        setA room.assignments ch (some room.hostName)
      else room.assignments
    | _ => room.assignments
  else room.assignments

/-- The boot-player handler: host only; if the booted name owns the active
dialogue beat during performance, hand that character to the host first;
then release every slot owned by the booted name and drop the player. -/
def bootPlayer (room : Room) (role : Role) (playerName : String) : Room × List Event :=
  if role ≠ Role.host then (room, [])
  else
    match room.players.find? (fun p => p.name = playerName) with
    | none => (room, [])
    | some target =>
      let r := { room with
        assignments := releaseAll (bootReassignActive room playerName) playerName,
        players := room.players.filter (fun p => p.name ≠ playerName) }
      (r, Event.kicked target.id :: listAndAssignmentsEvents r ++
          (if room.state = RoomState.performance then sendCurrentBeat r else []))

/-- The start-performance handler: host only, and only when every
character is assigned; note the source checks no room state. -/
def startPerformance (room : Room) (role : Role) : Room × List Event :=
  if role ≠ Role.host then (room, [])
  else if !allCharactersAssigned room then (room, [])
  else
    let r := { room with state := RoomState.performance, currentBeat := 0 }
    (r, Event.performanceStarted room.script.title :: sendCurrentBeat r)

/-- The beat-done handler: performance only; a direction beat never
advances by request; a dialogue beat advances only for the slot's owner
or the host. -/
def beatDone (room : Room) (role : Role) (name : String) : Room × List Event :=
  if room.state ≠ RoomState.performance then (room, [])
  else
    match room.script.beats.get? room.currentBeat with
    | none => (room, [])
    | some (Beat.direction _) => (room, [])
    | some (Beat.dialogue ch _) =>
      let activePlayer := (lookupA room.assignments ch).getD none
      if activePlayer ≠ some name ∧ role ≠ Role.host then (room, [])
      else advanceBeat room

/-- A player socket disconnecting: drop the player by socket id and
release every slot owned by their display name. -/
def disconnectPlayer (room : Room) (id name : String) : Room × List Event :=
  let r := { room with
    players := room.players.filter (fun p => p.id ≠ id),
    assignments := releaseAll room.assignments name }
  (r, listAndAssignmentsEvents r)

/-- The process-wide `rooms` object: code → room, in insertion order. -/
abbrev Registry := List (String × Room)

/-- `rooms[code]` lookup. -/
def lookupR (reg : Registry) (code : String) : Option Room :=
  match reg with
  | [] => none
  | (k, r) :: rest => if k = code then some r else lookupR rest code

/-- `rooms[code] = room` for a code already present. -/
def setR (reg : Registry) (code : String) (room : Room) : Registry :=
  reg.map (fun kr => (kr.1, if kr.1 = code then room else kr.2))

/-- The `setTimeout` callback scheduled by `sendCurrentBeat` for a
non-dialogue beat: re-checks that the room still exists, is still on the
scheduled beat index and is still in performance before advancing. -/
def autoAdvanceFire (reg : Registry) (code : String) (beatIndex : Nat) : Registry × List Event :=
  match lookupR reg code with
  | none => (reg, [])
  | some room =>
    if room.currentBeat = beatIndex ∧ room.state = RoomState.performance then
      let step := advanceBeat room
      (setR reg code step.1, step.2)
    else (reg, [])

/-- The room-code alphabet `'ABCDEFGHJKLMNPQRSTUVWXYZ23456789'`. -/
def alphabetChars : List Char := "ABCDEFGHJKLMNPQRSTUVWXYZ23456789".data

/-- One draw `chars[Math.floor(Math.random() * chars.length)]`. -/
def codeChar (i : Fin 32) : Char := alphabetChars.getD i.val 'A'

/-- One random draw of `Math.random()` per generated character. -/
abbrev Rand := Fin 32 × Fin 32 × Fin 32 × Fin 32

/-- `generateCode`, applied to the four random draws it consumes. -/
def generateCode (r : Rand) : String :=
  ⟨[codeChar r.1, codeChar r.2.1, codeChar r.2.2.1, codeChar r.2.2.2]⟩

/-- `makeUniqueCode`: the do/while retry loop, applied to the stream of
random draws it consumes; `none` stands for an exhausted stream (the JS
loop would keep drawing). -/
def makeUniqueCode (reg : Registry) : List Rand → Option String
  | [] => none
  | r :: rest =>
    let code := generateCode r
    if (lookupR reg code).isSome then makeUniqueCode reg rest else some code

/-- The script choice `preparedScripts[scriptIndex] || preparedScripts[0]`:
the indexed script when present, the first script otherwise (`none` only
for an empty catalogue, where the JS code would raise). -/
def selectScript (catalogue : List Script) (i : Nat) : Option Script :=
  match catalogue.get? i with
  | some s => some s
  | none => catalogue.get? 0

/-- The create-room handler: rejects an empty trimmed name, selects
`preparedScripts[scriptIndex] || preparedScripts[0]`, draws a fresh code
and registers a lobby room at beat 0 with all characters unassigned.
`none` covers the error callback, an empty catalogue (the JS code would
raise) and an exhausted random stream. -/
def createRoom (catalogue : List Script) (reg : Registry) (hostId name : String)
    (scriptIndex : Nat) (randoms : List Rand) : Option (String × Room) :=
  let trimmed := trimName name
  if trimmed.isEmpty then none
  else
    match selectScript catalogue scriptIndex with
    | none => none
    | some script =>
      match makeUniqueCode reg randoms with
      | none => none
      | some code =>
        some (code,
          { hostId := hostId, hostName := trimmed, players := [],
            script := script,
            assignments := initAssignments script.characters,
            state := RoomState.lobby, currentBeat := 0 })

/-- Whether an emission list contains a beat notification. -/
def hasBeat (evs : List Event) : Bool :=
  evs.any (fun e => match e with | Event.beat _ _ _ => true | _ => false)

/-- The spec invariant: `currentBeat` is below the beat count whenever the
room is in performance. -/
def beatInvariant (room : Room) : Prop :=
  room.state = RoomState.performance → room.currentBeat < room.script.beats.length

instance (room : Room) : Decidable (beatInvariant room) := by
  unfold beatInvariant; infer_instance

/-! Lemmas about the association-list primitives. -/

theorem lookupA_setA_self (a : Assignments) (ch : String) (v : Option String) :
    lookupA (setA a ch v) ch = (lookupA a ch).map (fun _ => v) := by
  induction a with
  | nil => rfl
  | cons kv rest ih =>
    obtain ⟨k, w⟩ := kv
    by_cases h : k = ch
    · simp [setA, lookupA, h]
    · simpa [setA, lookupA, h] using ih

theorem lookupA_setA_ne (a : Assignments) (ch ch' : String) (v : Option String)
    (h : ch' ≠ ch) : lookupA (setA a ch v) ch' = lookupA a ch' := by
  induction a with
  | nil => rfl
  | cons kv rest ih =>
    obtain ⟨k, w⟩ := kv
    by_cases hk : k = ch
    · subst hk
      simp [setA, lookupA, Ne.symm h]
      simpa [setA] using ih
    · by_cases hk' : k = ch'
      · simp [setA, lookupA, hk, hk', h]
      · simpa [setA, lookupA, hk, hk'] using ih

theorem lookupA_releaseAll (a : Assignments) (p : String) (ch : String) :
    lookupA (releaseAll a p) ch =
      (lookupA a ch).map (fun w => if w = some p then none else w) := by
  induction a with
  | nil => rfl
  | cons kv rest ih =>
    obtain ⟨k, w⟩ := kv
    by_cases h : k = ch
    · by_cases hw : w = some p <;> simp [releaseAll, lookupA, h, hw]
    · by_cases hw : w = some p <;> simpa [releaseAll, lookupA, h, hw] using ih

theorem lookupA_initAssignments (cs : List Character) (c : Character) (hc : c ∈ cs) :
    lookupA (initAssignments cs) c.name = some none := by
  induction cs with
  | nil => cases hc
  | cons d rest ih =>
    rcases List.mem_cons.mp hc with h | h
    · subst h; simp [initAssignments, lookupA]
    · by_cases hd : d.name = c.name
      · simp [initAssignments, lookupA, hd]
      · simpa [initAssignments, lookupA, hd] using ih h

theorem lookupR_setR_self (reg : Registry) (code : String) (room : Room) :
    lookupR (setR reg code room) code = (lookupR reg code).map (fun _ => room) := by
  induction reg with
  | nil => rfl
  | cons kr rest ih =>
    obtain ⟨k, r⟩ := kr
    by_cases h : k = code
    · simp [setR, lookupR, h]
    · simpa [setR, lookupR, h] using ih

/-! Operations that never touch the lifecycle fields. -/

theorem joinRoom_skeleton (room : Room) (id nm : String) :
    (joinRoom room id nm).1.state = room.state ∧
    (joinRoom room id nm).1.currentBeat = room.currentBeat ∧
    (joinRoom room id nm).1.script = room.script := by
  simp only [joinRoom]
  repeat' split
  all_goals exact ⟨rfl, rfl, rfl⟩

theorem claimCharacter_skeleton (room : Room) (nm ch : String) :
    (claimCharacter room nm ch).1.state = room.state ∧
    (claimCharacter room nm ch).1.currentBeat = room.currentBeat ∧
    (claimCharacter room nm ch).1.script = room.script := by
  simp only [claimCharacter]
  repeat' split
  all_goals exact ⟨rfl, rfl, rfl⟩

theorem forceAssign_skeleton (room : Room) (role : Role) (ch : String) (tp : Option String) :
    (forceAssign room role ch tp).1.state = room.state ∧
    (forceAssign room role ch tp).1.currentBeat = room.currentBeat ∧
    (forceAssign room role ch tp).1.script = room.script := by
  simp only [forceAssign]
  repeat' split
  all_goals exact ⟨rfl, rfl, rfl⟩

theorem bootPlayer_skeleton (room : Room) (role : Role) (p : String) :
    (bootPlayer room role p).1.state = room.state ∧
    (bootPlayer room role p).1.currentBeat = room.currentBeat ∧
    (bootPlayer room role p).1.script = room.script := by
  simp only [bootPlayer]
  repeat' split
  all_goals exact ⟨rfl, rfl, rfl⟩

theorem disconnectPlayer_skeleton (room : Room) (id nm : String) :
    (disconnectPlayer room id nm).1.state = room.state ∧
    (disconnectPlayer room id nm).1.currentBeat = room.currentBeat ∧
    (disconnectPlayer room id nm).1.script = room.script :=
  ⟨rfl, rfl, rfl⟩

/-! Facts about `advanceBeat`. -/

theorem advanceBeat_currentBeat (room : Room) (h : room.state = RoomState.performance) :
    (advanceBeat room).1.currentBeat = room.currentBeat + 1 := by
  unfold advanceBeat
  simp only [h, if_true]
  split <;> rfl

theorem advanceBeat_beatInvariant (room : Room) (hinv : beatInvariant room) :
    beatInvariant (advanceBeat room).1 := by
  unfold advanceBeat
  by_cases h : room.state = RoomState.performance
  · simp only [h, if_true]
    split
    · intro hs; cases hs
    · next hlt =>
      intro _
      exact Nat.lt_of_not_le hlt
  · simpa [h] using hinv

/-! Concrete fixtures for witnesses and counterexamples. -/

/-- A two-character, three-beat script. -/
def scriptA : Script :=
  { title := "T",
    characters := [⟨"Lead"⟩, ⟨"Sidekick"⟩],
    beats := [Beat.dialogue "Lead" "hi", Beat.direction "wave", Beat.dialogue "Sidekick" "yo"] }

/-- A fully cast room over `scriptA` whose performance has ended. -/
def roomEnded : Room :=
  { hostId := "h", hostName := "Amy", players := [⟨"p1", "Ben"⟩], script := scriptA,
    assignments := [("Lead", some "Amy"), ("Sidekick", some "Ben")],
    state := RoomState.ended, currentBeat := 3 }

/-- A performing room whose host and only player both display as Amy, the
player owning the active dialogue beat. -/
def roomShared : Room :=
  { hostId := "h", hostName := "Amy", players := [⟨"p1", "Amy"⟩], script := scriptA,
    assignments := [("Lead", some "Amy"), ("Sidekick", some "Ben")],
    state := RoomState.performance, currentBeat := 0 }

/-- A performing room over `scriptA` in which player Ben holds both parts. -/
def roomCast : Room :=
  { hostId := "h", hostName := "Amy", players := [⟨"p1", "Ben"⟩], script := scriptA,
    assignments := [("Lead", some "Ben"), ("Sidekick", some "Ben")],
    state := RoomState.performance, currentBeat := 0 }

/-- `roomCast` at the final beat of its script. -/
def roomCastLast : Room := { roomCast with currentBeat := 2 }

/-- A lobby room over `scriptA` with only Sidekick claimed. -/
def roomLobby : Room :=
  { hostId := "h", hostName := "Amy", players := [⟨"p1", "Ben"⟩], script := scriptA,
    assignments := [("Lead", none), ("Sidekick", some "Ben")],
    state := RoomState.lobby, currentBeat := 0 }

/-- The degenerate script with no characters and no beats. -/
def emptyScript : Script := { title := "E", characters := [], beats := [] }

/-- A lobby room over the empty script, as create-room would build it. -/
def roomEmpty : Room :=
  { hostId := "h", hostName := "Amy", players := [], script := emptyScript,
    assignments := [], state := RoomState.lobby, currentBeat := 0 }

/-! Claim C1. -/

/-- C1 counterexample: the start-performance handler checks no room state,
so on a fully cast room in state ended it does not leave state and
currentBeat unchanged — it restarts the room.  This refutes the claim
that startPerformance succeeds only from lobby and is otherwise a
no-op. -/
theorem C1_counterexample :
    roomEnded.state ≠ RoomState.lobby ∧
    (startPerformance roomEnded Role.host).1.state = RoomState.performance ∧
    (startPerformance roomEnded Role.host).1.currentBeat = 0 := by decide

/-- C1 (amended): startPerformance succeeds exactly when the caller is the
host and every character in assignments has a non-null owner, in any
room state (the handler checks no state); whenever the caller is not the
host or some character is unassigned it leaves the room — state,
currentBeat and assignments included — unchanged. -/
theorem C1_startPerformance_guard (room : Room) (role : Role) :
    ((role = Role.host ∧ allCharactersAssigned room = true) →
      (startPerformance room role).1.state = RoomState.performance ∧
      (startPerformance room role).1.currentBeat = 0 ∧
      (startPerformance room role).1.assignments = room.assignments) ∧
    ((role ≠ Role.host ∨ allCharactersAssigned room = false) →
      (startPerformance room role).1 = room) := by
  constructor
  · rintro ⟨hr, ha⟩
    subst hr
    simp [startPerformance, ha]
  · rintro (hr | ha)
    · simp [startPerformance, hr]
    · by_cases hr : role = Role.host
      · simp [startPerformance, hr, ha]
      · simp [startPerformance, hr]

/-- C1 witness: the amended guard evaluated on a concrete fully cast
room. -/
theorem C1_witness :
    (startPerformance roomLobby Role.player).1 = roomLobby ∧
    (startPerformance roomEnded Role.host).1.assignments = roomEnded.assignments :=
  ⟨(C1_startPerformance_guard roomLobby Role.player).2 (Or.inl (by decide)),
   ((C1_startPerformance_guard roomEnded Role.host).1 ⟨rfl, by decide⟩).2.2⟩

/-! Claim C2. -/

/-- C2 counterexample: the host and the booted player both display as Amy
and player Amy owns the active dialogue beat; boot-player first hands
the character to the host name Amy, but its release pass then matches
that very name and leaves the character unassigned — refuting "never to
unassigned". -/
theorem C2_counterexample :
    roomShared.state = RoomState.performance ∧
    roomShared.script.beats.get? roomShared.currentBeat = some (Beat.dialogue "Lead" "hi") ∧
    lookupA roomShared.assignments "Lead" = some (some "Amy") ∧
    (roomShared.players.find? (fun p => p.name = "Amy")).isSome = true ∧
    lookupA (bootPlayer roomShared Role.host "Amy").1.assignments "Lead" = some none := by decide

/-- C2 (amended): provided the host's display name differs from the booted
player's, booting the player who owns the active dialogue beat during
performance hands that character to the host, releases every other slot
the booted name holds to unassigned, and removes the player from the
list. -/
theorem C2_boot_active_owner (room : Room) (p ch t : String)
    (hstate : room.state = RoomState.performance)
    (hbeat : room.script.beats.get? room.currentBeat = some (Beat.dialogue ch t))
    (hown : (lookupA room.assignments ch).getD none = some p)
    (hmem : (room.players.find? (fun q => q.name = p)).isSome = true)
    (hne : room.hostName ≠ p) :
    lookupA (bootPlayer room Role.host p).1.assignments ch = some (some room.hostName) ∧
    (∀ c, c ≠ ch → lookupA room.assignments c = some (some p) →
      lookupA (bootPlayer room Role.host p).1.assignments c = some none) ∧
    (bootPlayer room Role.host p).1.players = room.players.filter (fun q => q.name ≠ p) := by
  obtain ⟨target, ht⟩ := Option.isSome_iff_exists.mp hmem
  have hlook : lookupA room.assignments ch = some (some p) := by
    cases hl : lookupA room.assignments ch with
    | none => rw [hl] at hown; simp at hown
    | some v => rw [hl] at hown; simp only [Option.getD_some] at hown; rw [hown]
  have hboot : (bootPlayer room Role.host p).1 = { room with
      assignments := releaseAll (bootReassignActive room p) p,
      players := room.players.filter (fun q => q.name ≠ p) } := by
    simp [bootPlayer, ht]
  have hre : bootReassignActive room p = setA room.assignments ch (some room.hostName) := by
    unfold bootReassignActive
    rw [if_pos hstate, hbeat]
    simp [hown]
  refine ⟨?_, ?_, ?_⟩
  · rw [hboot, hre]
    simp only [lookupA_releaseAll, lookupA_setA_self, hlook, Option.map_some]
    simp [hne]
  · intro c hc hc2
    rw [hboot, hre]
    simp only [lookupA_releaseAll, lookupA_setA_ne _ _ _ _ hc, hc2, Option.map_some]
    simp
  · rw [hboot]

/-- C2 witness: booting Ben, who owns both parts including the active
beat, in a room hosted by Amy. -/
theorem C2_witness :
    lookupA (bootPlayer roomCast Role.host "Ben").1.assignments "Lead" =
      some (some roomCast.hostName) ∧
    lookupA (bootPlayer roomCast Role.host "Ben").1.assignments "Sidekick" = some none ∧
    (bootPlayer roomCast Role.host "Ben").1.players = [] := by
  have h := C2_boot_active_owner roomCast "Ben" "Lead" "hi" rfl rfl (by decide) (by decide)
    (by decide)
  exact ⟨h.1, h.2.1 "Sidekick" (by decide) (by decide), h.2.2⟩

/-! Claim C3. -/

/-- C3 counterexample: the join-room handler rejects only the performance
state; joining a room in state ended succeeds and appends the player,
refuting "fails whenever the state is performance or ended". -/
theorem C3_counterexample :
    roomEnded.state = RoomState.ended ∧
    (joinRoom roomEnded "p2" "Cal").2.1 = JoinResult.ok "Cal" ∧
    (joinRoom roomEnded "p2" "Cal").1.players = roomEnded.players ++ [⟨"p2", "Cal"⟩] := by
  decide

/-- C3 (amended): join fails with an error when the room's state is
performance — but an ended room still accepts joins with a nonempty
trimmed name, appending the player — and every failed join leaves the
room, player list and assignments included, unchanged. -/
theorem C3_join_guard (room : Room) (id name : String) :
    (room.state = RoomState.performance →
      (joinRoom room id name).2.1 = JoinResult.error "Performance already started." ∧
      (joinRoom room id name).1 = room) ∧
    (room.state = RoomState.ended → (trimName name).isEmpty = false →
      (joinRoom room id name).2.1 = JoinResult.ok (trimName name) ∧
      (joinRoom room id name).1.players = room.players ++ [⟨id, trimName name⟩]) ∧
    (∀ msg, (joinRoom room id name).2.1 = JoinResult.error msg →
      (joinRoom room id name).1 = room) := by
  refine ⟨?_, ?_, ?_⟩
  · intro h
    simp [joinRoom, h]
  · intro h hne
    have hp : ¬ room.state = RoomState.performance := by
      rw [h]; intro hc; cases hc
    simp [joinRoom, hp, hne]
  · intro msg hmsg
    by_cases h : room.state = RoomState.performance
    · simp [joinRoom, h]
    · by_cases he : (trimName name).isEmpty
      · simp [joinRoom, h, he]
      · exfalso
        simp [joinRoom, h, he] at hmsg

/-- C3 witness: the guard evaluated on a performing room and on an ended
room. -/
theorem C3_witness :
    (joinRoom roomCast "p9" "Cal").1 = roomCast ∧
    (joinRoom roomEnded "p2" "Dee").2.1 = JoinResult.ok (trimName "Dee") :=
  ⟨((C3_join_guard roomCast "p9" "Cal").1 rfl).2,
   ((C3_join_guard roomEnded "p2" "Dee").2.1 rfl (by decide)).1⟩

/-! Claim C4. -/

/-- C4: claim-character has toggle semantics in the lobby for every known
character — self-unclaim, claim of an unassigned character, no-op when a
different name owns it — and is a no-op outside the lobby or for an
unknown character; four successive claims by one player starting from
unassigned end at unassigned. -/
theorem C4_claim_toggle (room : Room) (name ch : String) :
    (room.state = RoomState.lobby →
      (lookupA room.assignments ch = some (some name) →
        lookupA (claimCharacter room name ch).1.assignments ch = some none) ∧
      (lookupA room.assignments ch = some none →
        lookupA (claimCharacter room name ch).1.assignments ch = some (some name)) ∧
      (∀ other, other ≠ name → other ≠ "" → lookupA room.assignments ch = some (some other) →
        (claimCharacter room name ch).1 = room)) ∧
    (room.state ≠ RoomState.lobby → (claimCharacter room name ch).1 = room) ∧
    (lookupA room.assignments ch = none → (claimCharacter room name ch).1 = room) ∧
    (room.state = RoomState.lobby → lookupA room.assignments ch = some none →
      lookupA (claimCharacter (claimCharacter (claimCharacter
        (claimCharacter room name ch).1 name ch).1 name ch).1 name ch).1.assignments ch =
        some none) := by
  have hstep : ∀ r : Room, r.state = RoomState.lobby → ∀ v,
      lookupA r.assignments ch = some v →
      (claimCharacter r name ch).1 =
        { r with assignments :=
            if v = some name then setA r.assignments ch none
            else if truthy v = false then setA r.assignments ch (some name)
            else r.assignments } := by
    intro r hr v hv
    by_cases h1 : v = some name
    · simp [claimCharacter, hr, hv, h1]
    · by_cases h2 : truthy v = false
      · simp [claimCharacter, hr, hv, h1, h2]
      · simp [claimCharacter, hr, hv, h1, h2]
        rw [← hr]
  refine ⟨fun hl => ⟨?_, ?_, ?_⟩, ?_, ?_, ?_⟩
  · intro hv
    rw [hstep room hl (some name) hv]
    simp [lookupA_setA_self, hv]
  · intro hv
    rw [hstep room hl none hv]
    simp [truthy, lookupA_setA_self, hv]
  · intro other hon hoe hv
    have hie : other.isEmpty = false := by
      cases he : other.isEmpty with
      | true => exact absurd ((String.isEmpty_iff other).mp he) hoe
      | false => rfl
    rw [hstep room hl (some other) hv]
    rw [if_neg (by simpa using hon), if_neg (by simp [truthy, hie])]
  · intro h
    simp [claimCharacter, h]
  · intro hv
    by_cases h : room.state = RoomState.lobby <;> simp [claimCharacter, h, hv]
  · intro hl hv
    have e1 := hstep room hl none hv
    have s1 : (claimCharacter room name ch).1.state = RoomState.lobby := by rw [e1]; exact hl
    have l1 : lookupA (claimCharacter room name ch).1.assignments ch = some (some name) := by
      rw [e1]; simp [truthy, lookupA_setA_self, hv]
    have e2 := hstep _ s1 (some name) l1
    have s2 : (claimCharacter (claimCharacter room name ch).1 name ch).1.state =
        RoomState.lobby := by rw [e2]; exact s1
    have l2 : lookupA (claimCharacter (claimCharacter room name ch).1 name ch).1.assignments
        ch = some none := by
      rw [e2]; simp [lookupA_setA_self, l1]
    have e3 := hstep _ s2 none l2
    have s3 : (claimCharacter (claimCharacter (claimCharacter room name ch).1 name
        ch).1 name ch).1.state = RoomState.lobby := by rw [e3]; exact s2
    have l3 : lookupA (claimCharacter (claimCharacter (claimCharacter room name ch).1
        name ch).1 name ch).1.assignments ch = some (some name) := by
      rw [e3]; simp [truthy, lookupA_setA_self, l2]
    have e4 := hstep _ s3 (some name) l3
    rw [e4]
    simp [lookupA_setA_self, l3]

/-- C4 witness: toggles evaluated on a concrete lobby room. -/
theorem C4_witness :
    lookupA (claimCharacter roomLobby "Cal" "Lead").1.assignments "Lead" = some (some "Cal") ∧
    (claimCharacter roomLobby "Cal" "Sidekick").1 = roomLobby := by
  have h := C4_claim_toggle roomLobby "Cal" "Lead"
  have h2 := C4_claim_toggle roomLobby "Cal" "Sidekick"
  exact ⟨(h.1 rfl).2.1 (by decide), (h2.1 rfl).2.2 "Ben" (by decide) (by decide) (by decide)⟩

/-! Claim C5. -/

/-- C5: during performance, a dialogue beat at currentBeat is advanced by
exactly one by beat-done iff the caller's name equals the character's
current assignee or the caller is the host; any other caller's request
leaves the room unchanged, and beat-done on a direction beat has no
effect for every caller. -/
theorem C5_beat_done_gating (room : Room) (role : Role) (name : String)
    (hperf : room.state = RoomState.performance) :
    (∀ ch t, room.script.beats.get? room.currentBeat = some (Beat.dialogue ch t) →
      (((lookupA room.assignments ch).getD none = some name ∨ role = Role.host) →
        (beatDone room role name).1.currentBeat = room.currentBeat + 1) ∧
      ((lookupA room.assignments ch).getD none ≠ some name → role ≠ Role.host →
        beatDone room role name = (room, []))) ∧
    (∀ t, room.script.beats.get? room.currentBeat = some (Beat.direction t) →
      beatDone room role name = (room, [])) := by
  constructor
  · intro ch t hbeat
    have hD : beatDone room role name =
        (if (lookupA room.assignments ch).getD none ≠ some name ∧ role ≠ Role.host
          then (room, []) else advanceBeat room) := by
      unfold beatDone
      rw [if_neg (by simp [hperf]), hbeat]
    constructor
    · intro hok
      have hcond : ¬ ((lookupA room.assignments ch).getD none ≠ some name ∧
          role ≠ Role.host) := by
        rcases hok with h | h
        · exact fun hc => hc.1 h
        · exact fun hc => hc.2 h
      rw [hD, if_neg hcond]
      exact advanceBeat_currentBeat room hperf
    · intro h1 h2
      rw [hD, if_pos ⟨h1, h2⟩]
  · intro t hbeat
    unfold beatDone
    rw [if_neg (by simp [hperf]), hbeat]

/-- C5 witness: the gating evaluated on a performing room where Ben owns
the active dialogue beat. -/
theorem C5_witness :
    (beatDone roomCast Role.player "Ben").1.currentBeat = roomCast.currentBeat + 1 ∧
    beatDone roomCast Role.player "Cal" = (roomCast, []) := by
  have h := C5_beat_done_gating roomCast Role.player "Ben" rfl
  have h2 := C5_beat_done_gating roomCast Role.player "Cal" rfl
  exact ⟨(h.1 "Lead" "hi" rfl).1 (Or.inl (by decide)),
    (h2.1 "Lead" "hi" rfl).2 (by decide) (by decide)⟩

/-! Claim C6. -/

/-- C6 counterexample: ended is not beat-terminal — the start-performance
handler checks no state, so a host start-performance on a fully cast
ended room emits a beat notification again. -/
theorem C6_counterexample :
    roomEnded.state = RoomState.ended ∧
    hasBeat (startPerformance roomEnded Role.host).2 = true := by decide

/-- C6 (amended): when advanceBeat increments currentBeat past the last
beat index, the room transitions to ended and emits exactly the
end-of-performance notification (in particular no beat); and a room in
state ended emits no beat notification under any subsequent operation
except start-performance, which checks no state and can restart the
room. -/
theorem C6_ended_no_beat (room : Room) :
    (room.state = RoomState.performance →
      room.script.beats.length ≤ room.currentBeat + 1 →
      advanceBeat room =
        ({ room with currentBeat := room.currentBeat + 1, state := RoomState.ended },
          [Event.performanceEnded])) ∧
    (room.state = RoomState.ended →
      (∀ id nm, hasBeat (joinRoom room id nm).2.2 = false) ∧
      (∀ nm ch, hasBeat (claimCharacter room nm ch).2 = false) ∧
      (∀ role ch tp, hasBeat (forceAssign room role ch tp).2 = false) ∧
      (∀ role p, hasBeat (bootPlayer room role p).2 = false) ∧
      (∀ role nm, hasBeat (beatDone room role nm).2 = false) ∧
      hasBeat (advanceBeat room).2 = false ∧
      (∀ id nm, hasBeat (disconnectPlayer room id nm).2 = false) ∧
      (∀ reg code k, lookupR reg code = some room →
        hasBeat (autoAdvanceFire reg code k).2 = false)) := by
  constructor
  · intro hperf hle
    unfold advanceBeat
    rw [if_pos hperf, if_pos hle]
  · intro hE
    have hnp : ¬ room.state = RoomState.performance := by
      rw [hE]; intro hc; cases hc
    refine ⟨?_, ?_, ?_, ?_, ?_, ?_, ?_, ?_⟩
    · intro id nm
      unfold joinRoom
      rw [if_neg hnp]
      by_cases he : (trimName nm).isEmpty <;>
        simp [he, hasBeat, listAndAssignmentsEvents]
    · intro nm ch
      simp [claimCharacter, hE, hasBeat]
    · intro role ch tp
      simp only [forceAssign]
      repeat' split
      all_goals rfl
    · intro role p
      simp only [bootPlayer]
      repeat' split
      all_goals rfl
    · intro role nm
      simp [beatDone, hE, hasBeat]
    · simp [advanceBeat, hE, hasBeat]
    · intro id nm
      simp [disconnectPlayer, hasBeat, listAndAssignmentsEvents]
    · intro reg code k hreg
      simp only [autoAdvanceFire, hreg]
      rw [if_neg (by simp [hE])]
      rfl

/-- C6 witness: a performing room at its last beat ends with exactly the
performance-ended emission, and the ended room emits no beat under a
later join, beat-done or stale timer fire. -/
theorem C6_witness :
    advanceBeat roomCastLast =
      ({ roomCastLast with currentBeat := 3, state := RoomState.ended },
        [Event.performanceEnded]) ∧
    hasBeat (beatDone roomEnded Role.host "Amy").2 = false ∧
    hasBeat (autoAdvanceFire [("QQQQ", roomEnded)] "QQQQ" 1).2 = false := by
  have h := C6_ended_no_beat roomCastLast
  have h2 := C6_ended_no_beat roomEnded
  exact ⟨h.1 rfl (by decide), (h2.2 rfl).2.2.2.2.1 Role.host "Amy",
    (h2.2 rfl).2.2.2.2.2.2.2 [("QQQQ", roomEnded)] "QQQQ" 1 (by decide)⟩

/-! Claim C7. -/

/-- C7: a direction beat in performance schedules the delayed auto-advance
for the current index; the timer callback advances currentBeat by
exactly one when at fire time the room still exists, still sits on the
scheduled index and is still performing; and a stale timer — missing
room, moved-on index, or non-performance state — leaves the registry
untouched and emits nothing, so it never double-advances. -/
theorem C7_auto_advance (reg : Registry) (code : String) (room : Room) (k : Nat) :
    (room.state = RoomState.performance →
      ∀ t, room.script.beats.get? room.currentBeat = some (Beat.direction t) →
        Event.scheduleAutoAdvance room.currentBeat ∈ sendCurrentBeat room) ∧
    (lookupR reg code = some room → room.currentBeat = k →
      room.state = RoomState.performance →
      lookupR (autoAdvanceFire reg code k).1 code = some (advanceBeat room).1 ∧
      (advanceBeat room).1.currentBeat = room.currentBeat + 1) ∧
    (lookupR reg code = none → autoAdvanceFire reg code k = (reg, [])) ∧
    (lookupR reg code = some room →
      (room.currentBeat ≠ k ∨ ¬ room.state = RoomState.performance) →
      autoAdvanceFire reg code k = (reg, [])) := by
  refine ⟨?_, ?_, ?_, ?_⟩
  · intro hperf t hbeat
    unfold sendCurrentBeat
    rw [if_pos hperf, hbeat]
    simp
  · intro hreg hk hperf
    constructor
    · simp only [autoAdvanceFire, hreg]
      rw [if_pos ⟨hk, hperf⟩]
      simp [lookupR_setR_self, hreg]
    · exact advanceBeat_currentBeat room hperf
  · intro hreg
    simp [autoAdvanceFire, hreg]
  · intro hreg hstale
    have hcond : ¬ (room.currentBeat = k ∧ room.state = RoomState.performance) := by
      rcases hstale with h | h
      · exact fun hc => h hc.1
      · exact fun hc => h hc.2
    simp only [autoAdvanceFire, hreg]
    rw [if_neg hcond]

/-- `roomCast` sitting on the direction beat of its script. -/
def roomDir : Room := { roomCast with currentBeat := 1 }

/-- C7 witness: scheduling, a live fire, and a stale-index fire evaluated
on a concrete registry. -/
theorem C7_witness :
    Event.scheduleAutoAdvance 1 ∈ sendCurrentBeat roomDir ∧
    lookupR (autoAdvanceFire [("ABCD", roomDir)] "ABCD" 1).1 "ABCD" =
      some (advanceBeat roomDir).1 ∧
    autoAdvanceFire [("ABCD", roomDir)] "ABCD" 0 = ([("ABCD", roomDir)], []) := by
  have h := C7_auto_advance [("ABCD", roomDir)] "ABCD" roomDir 1
  have h0 := C7_auto_advance [("ABCD", roomDir)] "ABCD" roomDir 0
  exact ⟨h.1 rfl "wave" rfl, (h.2.1 (by decide) rfl rfl).1,
    h0.2.2.2 (by decide) (Or.inl (by decide))⟩

/-! Claim C8. -/

theorem codeChar_mem : ∀ i : Fin 32, codeChar i ∈ alphabetChars := by decide

theorem alphabet_unambiguous :
    ∀ c ∈ alphabetChars, c ≠ '0' ∧ c ≠ 'O' ∧ c ≠ '1' ∧ c ≠ 'I' := by decide

theorem generateCode_length (r : Rand) : (generateCode r).length = 4 := rfl

theorem generateCode_data (r : Rand) :
    (generateCode r).data =
      [codeChar r.1, codeChar r.2.1, codeChar r.2.2.1, codeChar r.2.2.2] := rfl

theorem generateCode_chars (r : Rand) : ∀ c ∈ (generateCode r).data, c ∈ alphabetChars := by
  intro c hc
  rw [generateCode_data] at hc
  rcases hc with _ | ⟨_, _ | ⟨_, _ | ⟨_, _ | ⟨_, h⟩⟩⟩⟩
  · exact codeChar_mem r.1
  · exact codeChar_mem r.2.1
  · exact codeChar_mem r.2.2.1
  · exact codeChar_mem r.2.2.2
  · cases h

theorem makeUniqueCode_spec (reg : Registry) (rs : List Rand) (code : String)
    (h : makeUniqueCode reg rs = some code) :
    (∃ r, code = generateCode r) ∧ lookupR reg code = none := by
  induction rs with
  | nil => cases h
  | cons r rest ih =>
    simp only [makeUniqueCode] at h
    by_cases hc : (lookupR reg (generateCode r)).isSome
    · rw [if_pos hc] at h
      exact ih h
    · rw [if_neg hc] at h
      cases h
      exact ⟨⟨r, rfl⟩, Option.not_isSome_iff_eq_none.mp hc⟩

theorem selectScript_get (catalogue : List Script) (i : Nat) (s : Script)
    (hget : catalogue.get? i = some s) : selectScript catalogue i = some s := by
  unfold selectScript
  rw [hget]

theorem selectScript_fallback (catalogue : List Script) (i : Nat)
    (hget : catalogue.get? i = none) : selectScript catalogue i = catalogue.get? 0 := by
  unfold selectScript
  rw [hget]

/-- C8: every successful create-room request yields a code of exactly 4
characters from the restricted alphabet (never 0, O, 1 or I), unused by
any live room; the room's script is the catalogue entry at scriptIndex,
falling back to the first entry when out of range; and the new room has
every character unassigned, state lobby, currentBeat 0 and no
players. -/
theorem C8_create_room (catalogue : List Script) (reg : Registry) (hostId nm : String)
    (i : Nat) (rs : List Rand) (code : String) (room : Room)
    (h : createRoom catalogue reg hostId nm i rs = some (code, room)) :
    code.length = 4 ∧
    (∀ c ∈ code.data, c ∈ alphabetChars ∧ c ≠ '0' ∧ c ≠ 'O' ∧ c ≠ '1' ∧ c ≠ 'I') ∧
    lookupR reg code = none ∧
    (∀ s, catalogue.get? i = some s → room.script = s) ∧
    (catalogue.get? i = none → ∀ s, catalogue.get? 0 = some s → room.script = s) ∧
    (∀ c ∈ room.script.characters, lookupA room.assignments c.name = some none) ∧
    room.state = RoomState.lobby ∧ room.currentBeat = 0 ∧ room.players = [] := by
  simp only [createRoom] at h
  by_cases ht : (trimName nm).isEmpty
  · rw [if_pos ht] at h; cases h
  · rw [if_neg ht] at h
    cases hsel : selectScript catalogue i with
    | none => rw [hsel] at h; cases h
    | some script =>
      rw [hsel] at h
      cases hmk : makeUniqueCode reg rs with
      | none => rw [hmk] at h; cases h
      | some code0 =>
        rw [hmk] at h
        simp only [Option.some.injEq, Prod.mk.injEq] at h
        obtain ⟨hcode, hroom⟩ := h
        subst hcode
        obtain ⟨⟨r, hr⟩, hfresh⟩ := makeUniqueCode_spec reg rs code0 hmk
        subst hr
        refine ⟨generateCode_length r, ?_, hfresh, ?_, ?_, ?_, ?_, ?_, ?_⟩
        · intro c hc
          have hm := generateCode_chars r c hc
          exact ⟨hm, alphabet_unambiguous c hm⟩
        · intro s hs
          rw [selectScript_get catalogue i s hs] at hsel
          cases hsel
          rw [← hroom]
        · intro hnone s hs
          rw [selectScript_fallback catalogue i hnone, hs] at hsel
          cases hsel
          rw [← hroom]
        · intro c hcmem
          rw [← hroom] at hcmem ⊢
          exact lookupA_initAssignments script.characters c hcmem
        · rw [← hroom]
        · rw [← hroom]
        · rw [← hroom]

/-- The room a concrete create-room request builds over `scriptA`. -/
def roomC8 : Room :=
  { hostId := "h", hostName := "Amy", players := [], script := scriptA,
    assignments := [("Lead", none), ("Sidekick", none)],
    state := RoomState.lobby, currentBeat := 0 }

/-- C8 witness: a concrete creation request against an empty registry. -/
theorem C8_witness :
    ("AAAA" : String).length = 4 ∧
    lookupR ([] : Registry) "AAAA" = none ∧
    roomC8.state = RoomState.lobby ∧ roomC8.currentBeat = 0 := by
  have h := C8_create_room [scriptA] [] "h" " Amy " 0
    [((0 : Fin 32), (0 : Fin 32), (0 : Fin 32), (0 : Fin 32))] "AAAA" roomC8 (by decide)
  exact ⟨h.1, h.2.2.1, h.2.2.2.2.2.2.1, h.2.2.2.2.2.2.2.1⟩

/-! Claim C9. -/

/-- C9 counterexample: a lobby room over a script with no characters and
no beats satisfies the invariant and passes allCharactersAssigned
vacuously, but startPerformance moves it to performance with
currentBeat 0 equal to the beat count, breaking the invariant. -/
theorem C9_counterexample :
    beatInvariant roomEmpty ∧
    ¬ beatInvariant (startPerformance roomEmpty Role.host).1 := by decide

/-- C9 (amended): provided the room's script has at least one beat, every
operation — join, claim-character, force-assign, boot-player,
start-performance, beat-done, advanceBeat and a player disconnect —
preserves the invariant that currentBeat is below the script's beat
count whenever the state is performance. -/
theorem C9_invariant_preservation (room : Room)
    (hb : 0 < room.script.beats.length) (hinv : beatInvariant room) :
    (∀ id nm, beatInvariant (joinRoom room id nm).1) ∧
    (∀ nm ch, beatInvariant (claimCharacter room nm ch).1) ∧
    (∀ role ch tp, beatInvariant (forceAssign room role ch tp).1) ∧
    (∀ role p, beatInvariant (bootPlayer room role p).1) ∧
    (∀ role, beatInvariant (startPerformance room role).1) ∧
    (∀ role nm, beatInvariant (beatDone room role nm).1) ∧
    beatInvariant (advanceBeat room).1 ∧
    (∀ id nm, beatInvariant (disconnectPlayer room id nm).1) := by
  have hskel : ∀ r : Room, r.state = room.state → r.currentBeat = room.currentBeat →
      r.script = room.script → beatInvariant r := by
    intro r h1 h2 h3 hp
    rw [h2, h3]
    exact hinv (by rw [← h1]; exact hp)
  refine ⟨?_, ?_, ?_, ?_, ?_, ?_, ?_, ?_⟩
  · intro id nm
    obtain ⟨h1, h2, h3⟩ := joinRoom_skeleton room id nm
    exact hskel _ h1 h2 h3
  · intro nm ch
    obtain ⟨h1, h2, h3⟩ := claimCharacter_skeleton room nm ch
    exact hskel _ h1 h2 h3
  · intro role ch tp
    obtain ⟨h1, h2, h3⟩ := forceAssign_skeleton room role ch tp
    exact hskel _ h1 h2 h3
  · intro role p
    obtain ⟨h1, h2, h3⟩ := bootPlayer_skeleton room role p
    exact hskel _ h1 h2 h3
  · intro role
    simp only [startPerformance]
    repeat' split
    all_goals first
      | exact hinv
      | exact fun _ => hb
  · intro role nm
    simp only [beatDone]
    repeat' split
    all_goals first
      | exact hinv
      | exact advanceBeat_beatInvariant room hinv
  · exact advanceBeat_beatInvariant room hinv
  · intro id nm
    obtain ⟨h1, h2, h3⟩ := disconnectPlayer_skeleton room id nm
    exact hskel _ h1 h2 h3

/-- C9 witness: preservation evaluated on concrete rooms, including the
state-free restart of an ended room. -/
theorem C9_witness :
    beatInvariant (advanceBeat roomCast).1 ∧
    beatInvariant (startPerformance roomEnded Role.host).1 := by
  have h := C9_invariant_preservation roomCast (by decide) (by decide)
  have h2 := C9_invariant_preservation roomEnded (by decide) (by decide)
  exact ⟨h.2.2.2.2.2.2.1, h2.2.2.2.2.1 Role.host⟩

/-! Claim C10. -/

/-- C10: during performance, when the current dialogue beat's character is
unassigned (owner null, as a host force-assign to null leaves it), a
beat-done from the host still advances currentBeat by one, while a
beat-done from any player is dropped. -/
theorem C10_unowned_beat_host_only (room : Room) (ch t : String)
    (hperf : room.state = RoomState.performance)
    (hbeat : room.script.beats.get? room.currentBeat = some (Beat.dialogue ch t))
    (hun : lookupA room.assignments ch = some none) :
    (∀ nm, (beatDone room Role.host nm).1.currentBeat = room.currentBeat + 1) ∧
    (∀ nm, beatDone room Role.player nm = (room, [])) ∧
    lookupA (forceAssign room Role.host ch none).1.assignments ch = some none := by
  have hD : ∀ role nm, beatDone room role nm =
      (if (lookupA room.assignments ch).getD none ≠ some nm ∧ role ≠ Role.host
        then (room, []) else advanceBeat room) := by
    intro role nm
    unfold beatDone
    rw [if_neg (by simp [hperf]), hbeat]
  refine ⟨?_, ?_, ?_⟩
  · intro nm
    rw [hD, if_neg (fun hc => hc.2 rfl)]
    exact advanceBeat_currentBeat room hperf
  · intro nm
    rw [hD, if_pos ⟨by simp [hun], by intro hc; cases hc⟩]
  · have hfa : (forceAssign room Role.host ch none).1 =
        { room with assignments := setA room.assignments ch none } := by
      simp [forceAssign, hun]
    rw [hfa]
    simp [lookupA_setA_self, hun]

/-- `roomCast` with the active dialogue beat's character unassigned. -/
def roomUnowned : Room :=
  { roomCast with assignments := [("Lead", none), ("Sidekick", some "Ben")] }

/-- C10 witness: the unowned active beat evaluated concretely. -/
theorem C10_witness :
    (beatDone roomUnowned Role.host "Amy").1.currentBeat = roomUnowned.currentBeat + 1 ∧
    beatDone roomUnowned Role.player "Ben" = (roomUnowned, []) := by
  have h := C10_unowned_beat_host_only roomUnowned "Lead" "hi" rfl rfl (by decide)
  exact ⟨h.1 "Amy", h.2.1 "Ben"⟩

end TableRead
